import Mathlib

/-!
Shallow embedding of the express-api-contracts library.

The embedding follows the newest revisions of the sources:
the error-accumulating request pipeline of src/express/register.ts
(registerContracts), the context-merging middleware wrapper of
useMiddleware, the duplicate-skipping registration loop, and the
OpenAPI generator generateOpenApi.

JavaScript values are modelled by the inductive JsVal (undefined is a
value, as in JS). A zod schema is modelled by its observable interface:
a pure safeParse function returning either parsed data or a list of
issues, plus the JSON-schema view returned by toJSONSchema; object
schemas additionally carry their shape (the field list).
-/

/-- A JavaScript value: undefined, null, booleans, numbers, strings,
arrays and objects (objects are ordered key-value lists, as JS object
own-key enumeration order). -/
inductive JsVal where
  | undef
  | null
  | bool (b : Bool)
  | num (n : Int)
  | str (s : String)
  | arr (elems : List JsVal)
  | obj (fields : List (String × JsVal))

/-- JS falsiness for the values the model can produce. -/
def JsVal.isFalsy : JsVal → Bool
  | .undef => true
  | .null => true
  | .bool b => !b
  | .num n => n == 0
  | .str s => s == ""
  | _ => false

/-- A zod validation issue: a path (list of keys) and a message. -/
structure Issue where
  path : List String
  message : String
deriving DecidableEq

/-- An entry of the error report sent to the client: a joined path and
a message, as in the objects built from ZodIssue values. -/
structure ErrEntry where
  path : String
  message : String
deriving DecidableEq

/-- Joining a zod issue path with dots, as i.path.join in the source. -/
def joinPath (p : List String) : String := String.intercalate "." p

/-- A zod schema, seen through its observable interface: safeParse
(here: parse, total, returning data or issues) and toJSONSchema
(here: jsonSchema). -/
structure ZSchema where
  parse : JsVal → Except (List Issue) JsVal
  jsonSchema : JsVal

/-- A zod object schema: a schema that additionally exposes its shape,
the ordered list of field names with their field schemas. -/
structure ZObjectSchema extends ZSchema where
  shape : List (String × ZSchema)

/-- Whether safeParse succeeds on a value. -/
def parseSucceeds (s : ZSchema) (v : JsVal) : Bool :=
  match s.parse v with
  | .ok _ => true
  | .error _ => false

/-- A middleware context object, the JS object merged across the chain. -/
abbrev Ctx := List (String × JsVal)

/-- Lookup of a key in a JS object modelled as an ordered field list. -/
def ctxLookup (k : String) : Ctx → Option JsVal
  | [] => none
  | p :: rest => if p.1 = k then some p.2 else ctxLookup k rest

/-- Whether a key occurs in a context object. -/
def ctxHas (k : String) (c : Ctx) : Bool := (ctxLookup k c).isSome

/-- JS object spread: the merge written as a spread of a over b keeps
the keys of a in place (values overridden by b where b has the key)
and appends the keys of b that a lacks. -/
def jsMerge (a b : Ctx) : Ctx :=
  a.map (fun p => (p.1, (ctxLookup p.1 b).getD p.2)) ++
    b.filter (fun p => !ctxHas p.1 a)

/-- The reply body shapes the library produces. -/
inductive ReplyBody where
  | errorsList (errors : List ErrEntry)
  | errorMsg (msg : String)
  | jsonVal (v : JsVal)
  | empty

/-- An HTTP reply: status plus one of the body shapes. -/
structure Reply where
  status : Nat
  body : ReplyBody

/-- Arguments the middleware handler receives. -/
structure MwArgs where
  body : Option JsVal
  headers : Option JsVal
  query : Option JsVal
  context : Ctx

/-- One observable step a middleware handler may take: calling
next.success with an optional context object, calling next.error with
a status and body, or writing a reply directly through res. -/
inductive MwAction where
  | success (ctx : Option Ctx)
  | error (status : Nat) (body : JsVal)
  | send (status : Nat) (body : JsVal)

/-- The trace of one middleware handler invocation: the actions it
performs in order, then optionally a thrown exception message. -/
structure MwBehavior where
  actions : List MwAction
  throws : Option String

/-- Request schemas a middleware contract may declare. -/
structure MwRequestSchemas where
  body : Option ZObjectSchema
  headers : Option ZObjectSchema
  query : Option ZObjectSchema

/-- A middleware contract: optional request schemas and a handler,
modelled by the trace of actions it performs on given arguments. -/
structure Middleware where
  request : Option MwRequestSchemas
  handler : MwArgs → MwBehavior

/-- The value a contract handler returns: a status field (undefined or
a number, 0 standing for a falsy number) and a body field that may be
absent altogether or present (possibly holding undefined). -/
structure HandlerResult where
  status : Option Nat
  body : Option JsVal

/-- A thrown JS exception, as the catch block distinguishes them:
either a ZodError carrying issues, or a generic error with a message. -/
inductive Thrown where
  | zodErr (issues : List Issue)
  | genErr (msg : String)

/-- The observable outcome of a contract handler call: it returns a
value (none standing for a falsy or missing result object) or throws. -/
inductive HandlerOutcome where
  | ret (r : Option HandlerResult)
  | throws (e : Thrown)

/-- Arguments the contract handler receives: parsed request parts and
the accumulated middleware context. -/
structure HandlerArgs where
  body : Option JsVal
  headers : Option JsVal
  query : Option JsVal
  params : Option JsVal
  context : Ctx

/-- Request schemas a contract may declare. -/
structure RequestSchemas where
  body : Option ZObjectSchema
  headers : Option ZObjectSchema
  query : Option ZObjectSchema
  params : Option ZObjectSchema

/-- An API contract. Responses map status codes to a schema or to null
(modelled as none) meaning no content; the list is the object literal
in its key order. -/
structure Contract where
  name : Option String
  path : String
  method : String
  request : Option RequestSchemas
  responses : List (Nat × Option ZSchema)
  middlewares : List Middleware
  handler : HandlerArgs → HandlerOutcome

/-- An incoming request as the route handler sees it: the raw parts and
the context field middlewares may have written on the request object. -/
structure Req where
  body : JsVal
  headers : JsVal
  query : JsVal
  params : JsVal
  context : Option Ctx

/-- The issues of one request part: empty when no schema is declared or
the schema accepts the raw value, otherwise every issue mapped to a
path prefixed with the part name and a dot. -/
def partErrors (partName : String) (schema : Option ZObjectSchema) (v : JsVal) :
    List ErrEntry :=
  match schema with
  | none => []
  | some s =>
    match s.parse v with
    | .ok _ => []
    | .error issues =>
      issues.map (fun i => ⟨partName ++ "." ++ joinPath i.path, i.message⟩)

/-- The accumulated validation errors of a contract route, in the fixed
order body, headers, query, params. -/
def collectErrors (c : Contract) (req : Req) : List ErrEntry :=
  partErrors "body" (c.request.bind (·.body)) req.body ++
  partErrors "headers" (c.request.bind (·.headers)) req.headers ++
  partErrors "query" (c.request.bind (·.query)) req.query ++
  partErrors "params" (c.request.bind (·.params)) req.params

/-- The data field of an optional safeParse: undefined when no schema
is declared or when parsing fails, otherwise the parsed value. -/
def parsedPart (schema : Option ZObjectSchema) (v : JsVal) : Option JsVal :=
  schema.bind (fun s => (s.parse v).toOption)

/-- The arguments the contract handler is called with. -/
def routeArgs (c : Contract) (req : Req) : HandlerArgs :=
  { body := parsedPart (c.request.bind (·.body)) req.body
    headers := parsedPart (c.request.bind (·.headers)) req.headers
    query := parsedPart (c.request.bind (·.query)) req.query
    params := parsedPart (c.request.bind (·.params)) req.params
    context := req.context.getD [] }

/-- The catch block of the route handler: a ZodError becomes a 500 with
the issue list, any other error a 500 with the error message. -/
def catchReply : Thrown → Reply
  | .zodErr issues =>
    ⟨500, .errorsList (issues.map (fun i => ⟨joinPath i.path, i.message⟩))⟩
  | .genErr msg => ⟨500, .errorMsg msg⟩

/-- Indexing the responses object of a contract by a status code. -/
def lookupResponse (rs : List (Nat × Option ZSchema)) (s : Nat) :
    Option (Option ZSchema) :=
  (rs.find? (fun p => p.1 == s)).map (·.2)

/-- Processing of the handler result by the route handler: the status
check, the response-schema lookup, the null-schema branch and the
response-body validation, with every thrown error landing in the catch
block modelled by catchReply. -/
def routeDispatch (c : Contract) (args : HandlerArgs) : Reply :=
  match c.handler args with
  | .throws e => catchReply e
  | .ret none =>
    catchReply (.genErr "Handler did not return a valid response object with \x27status\x27")
  | .ret (some r) =>
    match r.status with
    | none =>
      catchReply (.genErr "Handler did not return a valid response object with \x27status\x27")
    | some s =>
      if s = 0 then
        catchReply (.genErr "Handler did not return a valid response object with \x27status\x27")
      else
        match lookupResponse c.responses s with
        | none => catchReply (.genErr ("No schema defined for status " ++ toString s))
        | some none =>
          match r.body with
          | none => ⟨s, .empty⟩
          | some .undef => ⟨s, .empty⟩
          | some _ =>
            catchReply (.genErr ("Response must not include a body for status " ++ toString s))
        | some (some schema) =>
          match r.body with
          | none =>
            catchReply (.genErr ("Response for status " ++ toString s ++ " must include a body"))
          | some b =>
            match schema.parse b with
            | .error issues =>
              ⟨500, .errorsList (issues.map
                  (fun i => ⟨"response." ++ joinPath i.path, i.message⟩))⟩
            | .ok d => ⟨s, .jsonVal (if d.isFalsy then .obj [] else d)⟩

/-- The route handler registered by registerContracts, as a pure
function from the request to the reply sent, paired with the arguments
the contract handler was invoked with (none when it was never called):
the accumulated validation errors short-circuit to a 400 before the
handler runs, otherwise the handler result is dispatched. -/
def routeRun (c : Contract) (req : Req) : Reply × Option HandlerArgs :=
  if (collectErrors c req).isEmpty then
    (routeDispatch c (routeArgs c req), some (routeArgs c req))
  else (⟨400, .errorsList (collectErrors c req)⟩, none)

/-- The shared per-request response-side state: the context written on
the request object, whether headers were sent, and the replies sent. -/
structure ResState where
  context : Option Ctx
  headersSent : Bool
  replies : List Reply

/-- The fresh state of a request before any handler runs. -/
def ResState.initial : ResState := ⟨none, false, []⟩

/-- The state of one middleware wrapper invocation: the shared response
state plus the wrapper-local finished and next-called flags. -/
structure WrapState where
  res : ResState
  finished : Bool
  nextCalled : Bool

/-- Sending a reply through res: appends the reply and marks headers
sent, or throws (second component true) when headers were already
sent, as res.json does. -/
def trySend (st : ResState) (r : Reply) : ResState × Bool :=
  if st.headersSent then (st, true)
  else ({st with replies := st.replies ++ [r], headersSent := true}, false)

/-- Net effect of one middleware handler action on the wrapper state.
next.success sets finished, spreads the given context object over the
accumulated one on the request, and calls next. next.error sets
finished and sends the reply; if headers were already sent, both its
json call and the json call of its catch block throw, so the exception
propagates (second component true). A direct res write sends without
touching finished. -/
def runAction (w : WrapState) : MwAction → WrapState × Bool
  | .success ctx? =>
    ({w with finished := true
             res := {w.res with
               context := some (jsMerge (w.res.context.getD []) (ctx?.getD []))}
             nextCalled := true}, false)
  | .error s b =>
    let w1 := {w with finished := true}
    let (res1, threw) := trySend w1.res ⟨s, .jsonVal b⟩
    ({w1 with res := res1}, threw)
  | .send s b =>
    let (res1, threw) := trySend w.res ⟨s, .jsonVal b⟩
    ({w with res := res1}, threw)

/-- Running the actions of a middleware handler in order; a throwing
action aborts the rest and propagates. -/
def runActions (w : WrapState) : List MwAction → WrapState × Bool
  | [] => (w, false)
  | a :: rest =>
    let (w1, threw) := runAction w a
    if threw then (w1, true) else runActions w1 rest

/-- The safeHandler wrapper: runs the handler trace; when the handler
(or an action inside it) throws, the catch block replies 500 with the
error message only when the finished flag is still unset; if headers
were already sent that json call itself throws and the outer catch then
sends nothing, so the net effect is no reply. -/
def runSafeHandler (w : WrapState) (b : MwBehavior) : WrapState :=
  let (w1, threw) := runActions w b.actions
  if threw then w1
  else
    match b.throws with
    | none => w1
    | some msg =>
      if w1.finished then w1
      else if w1.res.headersSent then w1
      else {w1 with res := {w1.res with
              replies := w1.res.replies ++ [⟨500, .errorMsg msg⟩]
              headersSent := true}}

/-- The accumulated validation errors of a middleware, in the order
body, headers, query. -/
def mwCollectErrors (m : Middleware) (req : Req) : List ErrEntry :=
  partErrors "body" (m.request.bind (·.body)) req.body ++
  partErrors "headers" (m.request.bind (·.headers)) req.headers ++
  partErrors "query" (m.request.bind (·.query)) req.query

/-- The arguments a middleware handler is called with. -/
def mwArgsOf (m : Middleware) (req : Req) (st : ResState) : MwArgs :=
  { body := parsedPart (m.request.bind (·.body)) req.body
    headers := parsedPart (m.request.bind (·.headers)) req.headers
    query := parsedPart (m.request.bind (·.query)) req.query
    context := st.context.getD [] }

/-- The Express request handler produced by useMiddleware: validates
the declared parts (400 with the accumulated error list on failure,
without calling the handler), otherwise runs the handler through
safeHandler and finally calls next when the handler neither finished
nor sent headers. Returns the response state, whether next was called,
and the arguments the handler received (none when it never ran). -/
def runMw (m : Middleware) (req : Req) (st : ResState) :
    ResState × Bool × Option MwArgs :=
  let errors := mwCollectErrors m req
  if errors.isEmpty then
    let args := mwArgsOf m req st
    let w1 := runSafeHandler ⟨st, false, false⟩ (m.handler args)
    if !w1.finished && !w1.res.headersSent then (w1.res, true, some args)
    else (w1.res, w1.nextCalled, some args)
  else ((trySend st ⟨400, .errorsList errors⟩).1, false, none)

/-- Running a middleware chain: each wrapper runs in turn, the chain
continuing only while the wrapper called next. Returns the final state,
the argument records of the handlers that ran, and whether control
reached the end of the chain. -/
def runChain (req : Req) (st : ResState) :
    List Middleware → ResState × List MwArgs × Bool
  | [] => (st, [], true)
  | m :: rest =>
    match runMw m req st with
    | (st1, true, args?) =>
      let (st2, seen, proceed) := runChain req st1 rest
      (st2, args?.toList ++ seen, proceed)
    | (st1, false, args?) => (st1, args?.toList, false)

/-- The whole registered route: the middleware chain followed, when the
last middleware called next, by the contract route handler, which reads
the context the chain left on the request object. -/
def runPipeline (c : Contract) (req : Req) :
    ResState × List MwArgs × Option HandlerArgs × Option Reply :=
  match runChain req ResState.initial c.middlewares with
  | (st, seen, true) =>
    let (reply, hargs) := routeRun c {req with context := st.context}
    ((trySend st reply).1, seen, hargs, some reply)
  | (st, seen, false) => (st, seen, none, none)

/-- The duplicate key of a contract, method colon path. -/
def contractKey (c : Contract) : String := c.method ++ ":" ++ c.path

/-- Membership in the per-app registered set, modelled as a key list. -/
def regHas : List String → String → Bool
  | [], _ => false
  | r :: rest, k => if r = k then true else regHas rest k

/-- The registration loop of registerContracts: skips a contract whose
key is already in the per-app registered set, otherwise adds the key
and appends the route. The set is modelled as the list of keys in
insertion order, the routing table as the list of key-contract pairs in
registration order. -/
def registerLoop (registered : List String) (routes : List (String × Contract)) :
    List Contract → List String × List (String × Contract)
  | [] => (registered, routes)
  | c :: rest =>
    let key := contractKey c
    if regHas registered key then registerLoop registered routes rest
    else registerLoop (registered ++ [key]) (routes ++ [(key, c)]) rest

/-- Several registerContracts calls on the same app: the registered set
and routing table persist across calls through the per-app map. -/
def registerCalls (st : List String × List (String × Contract)) :
    List (List Contract) → List String × List (String × Contract)
  | [] => st
  | cs :: rest => registerCalls (registerLoop st.1 st.2 cs) rest

/-- Dropping the dollar-schema key from a JSON-schema object, as the
object rest-spread in sanitizeSchema does. -/
def sanitizeSchema : JsVal → JsVal
  | .obj fields => .obj (fields.filter (fun p => p.1 != "$schema"))
  | _ => .obj []

/-- One OpenAPI parameter entry for a query or header field: required
exactly when safeParse rejects undefined. -/
def paramEntry (loc : String) (key : String) (f : ZSchema) : JsVal :=
  .obj [("name", .str key), ("in", .str loc),
        ("required", .bool (!parseSucceeds f .undef)),
        ("schema", sanitizeSchema f.jsonSchema)]

/-- The query parameter entries of a contract, one per declared field. -/
def queryParams (schema : Option ZObjectSchema) : List JsVal :=
  match schema with
  | none => []
  | some s => s.shape.map (fun p => paramEntry "query" p.1 p.2)

/-- The toLowerCase call on a header name, modelled by lowering each
character. -/
def lowerName (s : String) : String := String.mk (s.data.map Char.toLower)

/-- The header parameter entries of a contract, one per declared field,
names lowercased. -/
def headerParams (schema : Option ZObjectSchema) : List JsVal :=
  match schema with
  | none => []
  | some s => s.shape.map (fun p => paramEntry "header" (lowerName p.1) p.2)

/-- The OpenAPI responses entry for one declared status: a plain
no-content description for a null schema, otherwise a description with
the content schema. -/
def respEntry (status : Nat) (schema : Option ZSchema) : JsVal :=
  match schema with
  | none =>
    .obj [("description", .str ("Response " ++ toString status ++ " (no content)"))]
  | some s =>
    .obj [("description", .str ("Response " ++ toString status)),
          ("content", .obj [("application/json",
            .obj [("schema", sanitizeSchema s.jsonSchema)])])]

/-- The responses object of one contract: one entry per declared
status, keyed by the status rendered as a string. -/
def genResponses (rs : List (Nat × Option ZSchema)) : List (String × JsVal) :=
  rs.map (fun p => (toString p.1, respEntry p.1 p.2))

/-- The operation object generated for one contract, with its key order
summary, requestBody, responses, parameters. An empty or missing name
yields an undefined summary. -/
def opEntry (c : Contract) : JsVal :=
  .obj [("summary",
          match c.name with
          | some s => if s = "" then .undef else .str s
          | none => .undef),
        ("requestBody",
          match c.request.bind (·.body) with
          | some b => .obj [("content", .obj [("application/json",
              .obj [("schema", sanitizeSchema b.jsonSchema)])])]
          | none => .undef),
        ("responses", .obj (genResponses c.responses)),
        ("parameters", .arr (queryParams (c.request.bind (·.query)) ++
                             headerParams (c.request.bind (·.headers))))]

/-- Reading a key of a JS object field list. -/
def objGet : List (String × JsVal) → String → Option JsVal
  | [], _ => none
  | p :: rest, k => if p.1 = k then some p.2 else objGet rest k

/-- JS object assignment: updates the value in place when the key
exists, otherwise appends the key. -/
def objSet (o : List (String × JsVal)) (k : String) (v : JsVal) :
    List (String × JsVal) :=
  if (objGet o k).isSome then
    o.map (fun p => if p.1 = k then (k, v) else p)
  else o ++ [(k, v)]

/-- The field list of an optional value when it is an object, the
empty list otherwise. -/
def asObjFields : Option JsVal → List (String × JsVal)
  | some (.obj m) => m
  | _ => []

/-- One step of the paths loop: reads the object at the contract path
(an empty object when absent or not an object), writes the operation
entry at the method key, and stores the result back at the path. -/
def pathsStep (paths : List (String × JsVal)) (c : Contract) :
    List (String × JsVal) :=
  objSet paths c.path
    (.obj (objSet (asObjFields (objGet paths c.path)) c.method (opEntry c)))

/-- The paths object of the generated document. -/
def genPaths (cs : List Contract) : List (String × JsVal) :=
  cs.foldl pathsStep []

/-- generateOpenApi: the document with the fixed version string, the
given metadata as info, and the generated paths. -/
def generateOpenApi (cs : List Contract) (metadata : JsVal) : JsVal :=
  .obj [("openapi", .str "3.0.3"), ("info", metadata),
        ("paths", .obj (genPaths cs))]

/-- The operation entry stored in a paths object for a path and
method: the method key of the object at the path, none when the path
holds no object (looking a key up in a non-object gives undefined). -/
def pathsLookup (paths : List (String × JsVal)) (p m : String) : Option JsVal :=
  objGet (asObjFields (objGet paths p)) m

/-! ### Shared lemmas about the embedding -/

theorem ctxLookup_append (k : String) (xs ys : Ctx) :
    ctxLookup k (xs ++ ys) =
      match ctxLookup k xs with
      | some v => some v
      | none => ctxLookup k ys := by
  induction xs with
  | nil => simp [ctxLookup]
  | cons p rest ih =>
    by_cases h : p.1 = k <;> simp [ctxLookup, h, ih]

theorem ctxLookup_mapMerge (k : String) (a b : Ctx) :
    ctxLookup k (a.map (fun p => (p.1, (ctxLookup p.1 b).getD p.2))) =
      match ctxLookup k a with
      | some v => some ((ctxLookup k b).getD v)
      | none => none := by
  induction a with
  | nil => simp [ctxLookup]
  | cons p rest ih =>
    by_cases h : p.1 = k
    · subst h; simp [ctxLookup, ih]
    · simp [ctxLookup, h, ih]

theorem ctxLookup_filterMerge (k : String) (a b : Ctx) :
    ctxLookup k (b.filter (fun p => !ctxHas p.1 a)) =
      if ctxHas k a then none else ctxLookup k b := by
  induction b with
  | nil => simp [ctxLookup]
  | cons q rest ih =>
    by_cases hq : ctxHas q.1 a
    · by_cases hk : q.1 = k
      · subst hk; simp [List.filter, hq, ctxLookup, ih]
      · simp [List.filter, hq, ctxLookup, hk, ih]
    · by_cases hk : q.1 = k
      · subst hk; simp [List.filter, hq, ctxLookup, ih]
      · simp [List.filter, hq, ctxLookup, hk, ih]

/-- Lookup in a JS spread merge: the right object wins on shared keys. -/
theorem ctxLookup_jsMerge (k : String) (a b : Ctx) :
    ctxLookup k (jsMerge a b) =
      match ctxLookup k b with
      | some v => some v
      | none => ctxLookup k a := by
  unfold jsMerge
  rw [ctxLookup_append, ctxLookup_mapMerge, ctxLookup_filterMerge]
  unfold ctxHas
  cases ha : ctxLookup k a <;> cases hb : ctxLookup k b <;>
    simp [ha, hb, Option.getD]

/-- Merging with the empty object on the right is the identity. -/
theorem jsMerge_nil (a : Ctx) : jsMerge a [] = a := by
  unfold jsMerge
  simp [ctxLookup, Option.getD]


/-! ### C1 -/

/-- C1: a request to a contract route on which at least one declared
request schema fails yields a 400 reply whose body is the single error
list accumulating the issues of every failing part, in the fixed order
body, headers, query, params, each entry path prefixed by the part
name; the parts are validated independently, so an earlier failure
does not suppress a later part. -/
theorem validation_failure_accumulates_all_parts (c : Contract) (req : Req)
    (h : collectErrors c req ≠ []) :
    (routeRun c req).1 = ⟨400, .errorsList (collectErrors c req)⟩ ∧
    collectErrors c req =
      partErrors "body" (c.request.bind (·.body)) req.body ++
      partErrors "headers" (c.request.bind (·.headers)) req.headers ++
      partErrors "query" (c.request.bind (·.query)) req.query ++
      partErrors "params" (c.request.bind (·.params)) req.params ∧
    (∀ partName schema v, ∀ e ∈ partErrors partName schema v,
      ∃ rest, e.path = partName ++ "." ++ rest) := by
  refine ⟨?_, rfl, ?_⟩
  · have hf : (collectErrors c req).isEmpty = false := by
      cases hc : collectErrors c req with
      | nil => exact absurd hc h
      | cons a l => rfl
    simp [routeRun, hf]
  · intro partName schema v e he
    cases schema with
    | none => simp [partErrors] at he
    | some s =>
      cases hp : s.parse v with
      | ok d => simp [partErrors, hp] at he
      | error issues =>
        simp only [partErrors, hp, List.mem_map] at he
        obtain ⟨i, _, hi⟩ := he
        exact ⟨joinPath i.path, by rw [← hi]⟩

def failWith (pathKey msg : String) : ZObjectSchema :=
  { parse := fun _ => .error [⟨[pathKey], msg⟩], jsonSchema := .obj [], shape := [] }

def okObjSchema : ZSchema := { parse := fun v => .ok v, jsonSchema := .obj [] }

def reqEmpty : Req := ⟨.obj [], .obj [], .obj [], .obj [], none⟩

def cBadBodyQuery : Contract :=
  { name := none, path := "/a", method := "post",
    request := some ⟨some (failWith "x" "bad body"), none, some (failWith "q" "bad query"), none⟩,
    responses := [(200, some okObjSchema)], middlewares := [],
    handler := fun _ => .ret (some ⟨some 200, some (.obj [])⟩) }

theorem validation_failure_accumulates_all_parts_witness :
    (routeRun cBadBodyQuery reqEmpty).1 =
      ⟨400, .errorsList [⟨"body.x", "bad body"⟩, ⟨"query.q", "bad query"⟩]⟩ := by
  have h := (validation_failure_accumulates_all_parts cBadBodyQuery reqEmpty
    (by decide)).1
  rw [h]; rfl

/-! ### C3 -/

/-- C3: the contract handler runs exactly when every declared request
schema parses successfully, and it receives the parsed data of each
declared part (the safeParse output, not the raw request value) plus
the accumulated middleware context; on any validation failure it is
never called. -/
theorem handler_called_iff_all_parts_valid (c : Contract) (req : Req) :
    ((routeRun c req).2 = some (routeArgs c req) ↔ collectErrors c req = []) ∧
    ((routeRun c req).2 = none ↔ collectErrors c req ≠ []) ∧
    (routeArgs c req).context = req.context.getD [] ∧
    (∀ s, c.request.bind (·.body) = some s →
      (routeArgs c req).body = (s.parse req.body).toOption) ∧
    (∀ s, c.request.bind (·.headers) = some s →
      (routeArgs c req).headers = (s.parse req.headers).toOption) ∧
    (∀ s, c.request.bind (·.query) = some s →
      (routeArgs c req).query = (s.parse req.query).toOption) ∧
    (∀ s, c.request.bind (·.params) = some s →
      (routeArgs c req).params = (s.parse req.params).toOption) ∧
    (∀ s d, c.request.bind (·.body) = some s → s.parse req.body = .ok d →
      (routeArgs c req).body = some d) := by
  refine ⟨?_, ?_, rfl, ?_, ?_, ?_, ?_, ?_⟩
  · cases hc : collectErrors c req with
    | nil => simp [routeRun, hc]
    | cons a l => simp [routeRun, hc]
  · cases hc : collectErrors c req with
    | nil => simp [routeRun, hc]
    | cons a l => simp [routeRun, hc]
  · intro s hs; simp [routeArgs, parsedPart, hs]
  · intro s hs; simp [routeArgs, parsedPart, hs]
  · intro s hs; simp [routeArgs, parsedPart, hs]
  · intro s hs; simp [routeArgs, parsedPart, hs]
  · intro s d hs hd; simp [routeArgs, parsedPart, hs, hd, Except.toOption]

def transformSchema : ZObjectSchema :=
  { parse := fun _ => .ok (.num 42), jsonSchema := .obj [], shape := [] }

def cTransform : Contract :=
  { name := none, path := "/t", method := "get",
    request := some ⟨some transformSchema, none, none, none⟩,
    responses := [(200, some okObjSchema)], middlewares := [],
    handler := fun _ => .ret (some ⟨some 200, some (.obj [])⟩) }

theorem handler_called_iff_all_parts_valid_witness :
    (routeRun cTransform reqEmpty).2 = some (routeArgs cTransform reqEmpty) ∧
    (routeArgs cTransform reqEmpty).body = some (.num 42) :=
  ⟨(handler_called_iff_all_parts_valid cTransform reqEmpty).1.mpr rfl,
   (handler_called_iff_all_parts_valid cTransform reqEmpty).2.2.2.2.2.2.2
     transformSchema (.num 42) rfl rfl⟩

/-! ### C2 -/

/-- The response-side invariant of a request: no reply before headers
are sent, and never more than one reply. -/
def ResState.oneShot (st : ResState) : Prop :=
  (st.headersSent = false → st.replies = []) ∧ st.replies.length ≤ 1

theorem trySend_oneShot {st : ResState} {r : Reply} (h : st.oneShot) :
    (trySend st r).1.oneShot := by
  unfold trySend
  by_cases hs : st.headersSent
  · simpa [hs] using h
  · simp only [Bool.not_eq_true] at hs
    refine ⟨by simp [hs], ?_⟩
    simp [hs, h.1 hs]

theorem runAction_oneShot {w : WrapState} {a : MwAction} (h : w.res.oneShot) :
    (runAction w a).1.res.oneShot := by
  cases a with
  | success ctx? => exact h
  | error s b => exact trySend_oneShot h
  | send s b => exact trySend_oneShot h

theorem runActions_oneShot {acts : List MwAction} :
    ∀ {w : WrapState}, w.res.oneShot → (runActions w acts).1.res.oneShot := by
  induction acts with
  | nil => intro w h; exact h
  | cons a rest ih =>
    intro w h
    unfold runActions
    cases hr : runAction w a with
    | mk w1 threw =>
      have h1 : w1.res.oneShot := by
        have := @runAction_oneShot w a h
        rw [hr] at this; exact this
      cases threw with
      | true => simpa using h1
      | false => simpa using ih h1

theorem runSafeHandler_oneShot {w : WrapState} {b : MwBehavior}
    (h : w.res.oneShot) : (runSafeHandler w b).res.oneShot := by
  unfold runSafeHandler
  cases hr : runActions w b.actions with
  | mk w1 threw =>
    have h1 : w1.res.oneShot := by
      have := @runActions_oneShot b.actions w h
      rw [hr] at this; exact this
    cases threw with
    | true => simpa using h1
    | false =>
      cases b.throws with
      | none => simpa using h1
      | some msg =>
        by_cases hf : w1.finished
        · simp [hf]; exact h1
        · by_cases hhs : w1.res.headersSent
          · simp [hf, hhs]; exact h1
          · simp only [Bool.not_eq_true] at hhs
            simp only [hf, hhs, if_false, if_true, Bool.false_eq_true]
            refine ⟨by simp, ?_⟩
            simp [h1.1 hhs]

theorem runMw_oneShot (m : Middleware) (req : Req) {st : ResState}
    (h : st.oneShot) : (runMw m req st).1.oneShot := by
  unfold runMw
  by_cases he : (mwCollectErrors m req).isEmpty
  · simp only [he, if_true]
    have h1 := @runSafeHandler_oneShot ⟨st, false, false⟩
      (m.handler (mwArgsOf m req st)) h
    by_cases hc : !(runSafeHandler ⟨st, false, false⟩
        (m.handler (mwArgsOf m req st))).finished &&
        !(runSafeHandler ⟨st, false, false⟩
        (m.handler (mwArgsOf m req st))).res.headersSent
    · simp [hc]; exact h1
    · simp [hc]; exact h1
  · simp only [he, Bool.false_eq_true, if_false]
    exact trySend_oneShot h

theorem ResState.initial_oneShot : ResState.initial.oneShot := by
  exact ⟨fun _ => rfl, by simp [ResState.initial]⟩

/-- C2: every failure maps one-shot to a status. A failing declared
request validation on the route yields the structured 400; a contract
handler exception yields a 500 with the error message (a thrown
ZodError a 500 with its issue list); a middleware whose declared
validation fails replies 400 and does not continue the chain; a
middleware handler exception yields a single 500 with the error
message and does not continue the chain; and a middleware wrapper
starting from a fresh request never produces more than one reply. -/
theorem failure_one_shot_status_map (c : Contract) (req : Req)
    (m : Middleware) (msg : String) :
    (collectErrors c req ≠ [] →
      (routeRun c req).1 = ⟨400, .errorsList (collectErrors c req)⟩) ∧
    (collectErrors c req = [] →
      c.handler (routeArgs c req) = .throws (.genErr msg) →
      (routeRun c req).1 = ⟨500, .errorMsg msg⟩) ∧
    (∀ issues, collectErrors c req = [] →
      c.handler (routeArgs c req) = .throws (.zodErr issues) →
      (routeRun c req).1 =
        ⟨500, .errorsList (issues.map (fun i => ⟨joinPath i.path, i.message⟩))⟩) ∧
    (mwCollectErrors m req ≠ [] →
      runMw m req ResState.initial =
        (⟨none, true, [⟨400, .errorsList (mwCollectErrors m req)⟩]⟩, false, none)) ∧
    (mwCollectErrors m req = [] →
      m.handler (mwArgsOf m req ResState.initial) = ⟨[], some msg⟩ →
      runMw m req ResState.initial =
        (⟨none, true, [⟨500, .errorMsg msg⟩]⟩, false,
          some (mwArgsOf m req ResState.initial))) ∧
    (runMw m req ResState.initial).1.replies.length ≤ 1 := by
  refine ⟨?_, ?_, ?_, ?_, ?_, ?_⟩
  · intro h
    have hf : (collectErrors c req).isEmpty = false := by
      cases hc : collectErrors c req with
      | nil => exact absurd hc h
      | cons a l => rfl
    simp [routeRun, hf]
  · intro h hh
    simp [routeRun, h, routeDispatch, hh, catchReply]
  · intro issues h hh
    simp [routeRun, h, routeDispatch, hh, catchReply]
  · intro h
    have hf : (mwCollectErrors m req).isEmpty = false := by
      cases hc : mwCollectErrors m req with
      | nil => exact absurd hc h
      | cons a l => rfl
    simp [runMw, hf, trySend, ResState.initial]
  · intro h hh
    have hf : (mwCollectErrors m req).isEmpty = true := by simp [h]
    simp only [runMw, hf, if_true]
    rw [hh]
    simp [runSafeHandler, runActions, ResState.initial]
  · exact (runMw_oneShot m req ResState.initial_oneShot).2

def mwThrowing : Middleware := { request := none, handler := fun _ => ⟨[], some "boom"⟩ }

def cThrowing : Contract :=
  { name := none, path := "/e", method := "get", request := none,
    responses := [(200, some okObjSchema)], middlewares := [],
    handler := fun _ => .throws (.genErr "boom") }

theorem failure_one_shot_status_map_witness :
    (routeRun cThrowing reqEmpty).1 = ⟨500, .errorMsg "boom"⟩ ∧
    runMw mwThrowing reqEmpty ResState.initial =
      (⟨none, true, [⟨500, .errorMsg "boom"⟩]⟩, false,
        some (mwArgsOf mwThrowing reqEmpty ResState.initial)) :=
  ⟨(failure_one_shot_status_map cThrowing reqEmpty mwThrowing "boom").2.1 rfl rfl,
   (failure_one_shot_status_map cThrowing reqEmpty mwThrowing "boom").2.2.2.2.1 rfl rfl⟩

/-! ### C4 -/

/-- C4: a handler result is only forwarded through its declared
response schema. With the handler returning a result with a nonzero
status: an undeclared status yields the no-schema error reply and the
body is never forwarded; a null schema sends a bodyless reply and a
result carrying a real body is an error; a declared schema parses the
body, a failure yielding a 500 with response-prefixed issue paths and
a success forwarding exactly the parsed body. -/
theorem response_schema_enforced (c : Contract) (args : HandlerArgs)
    (r : HandlerResult) (s : Nat)
    (h1 : c.handler args = .ret (some r))
    (h2 : r.status = some s) (h3 : s ≠ 0) :
    (lookupResponse c.responses s = none →
      routeDispatch c args =
        ⟨500, .errorMsg ("No schema defined for status " ++ toString s)⟩) ∧
    (lookupResponse c.responses s = some none → r.body = none →
      routeDispatch c args = ⟨s, .empty⟩) ∧
    (lookupResponse c.responses s = some none → r.body = some .undef →
      routeDispatch c args = ⟨s, .empty⟩) ∧
    (∀ b, lookupResponse c.responses s = some none → r.body = some b →
      b ≠ .undef →
      routeDispatch c args =
        ⟨500, .errorMsg ("Response must not include a body for status " ++ toString s)⟩) ∧
    (∀ sch, lookupResponse c.responses s = some (some sch) → r.body = none →
      routeDispatch c args =
        ⟨500, .errorMsg ("Response for status " ++ toString s ++ " must include a body")⟩) ∧
    (∀ sch b issues, lookupResponse c.responses s = some (some sch) →
      r.body = some b → sch.parse b = .error issues →
      routeDispatch c args =
        ⟨500, .errorsList (issues.map
          (fun i => ⟨"response." ++ joinPath i.path, i.message⟩))⟩) ∧
    (∀ sch b d, lookupResponse c.responses s = some (some sch) →
      r.body = some b → sch.parse b = .ok d → d.isFalsy = false →
      routeDispatch c args = ⟨s, .jsonVal d⟩) := by
  refine ⟨?_, ?_, ?_, ?_, ?_, ?_, ?_⟩
  · intro hl
    simp [routeDispatch, h1, h2, h3, hl, catchReply]
  · intro hl hb
    simp [routeDispatch, h1, h2, h3, hl, hb]
  · intro hl hb
    simp [routeDispatch, h1, h2, h3, hl, hb]
  · intro b hl hb hne
    cases b
    case undef => exact absurd rfl hne
    all_goals simp [routeDispatch, h1, h2, h3, hl, hb, catchReply]
  · intro sch hl hb
    simp [routeDispatch, h1, h2, h3, hl, hb, catchReply]
  · intro sch b issues hl hb hp
    simp [routeDispatch, h1, h2, h3, hl, hb, hp]
  · intro sch b d hl hb hp hf
    simp [routeDispatch, h1, h2, h3, hl, hb, hp, hf]

def cRespOk : Contract :=
  { name := none, path := "/r", method := "get", request := none,
    responses := [(204, none), (200, some okObjSchema)], middlewares := [],
    handler := fun _ => .ret (some ⟨some 200, some (.obj [("ok", .bool true)])⟩) }

def cRespMissing : Contract :=
  { name := none, path := "/r2", method := "get", request := none,
    responses := [], middlewares := [],
    handler := fun _ => .ret (some ⟨some 404, some (.obj [])⟩) }

theorem response_schema_enforced_witness :
    routeDispatch cRespOk (routeArgs cRespOk reqEmpty) =
      ⟨200, .jsonVal (.obj [("ok", .bool true)])⟩ ∧
    routeDispatch cRespMissing (routeArgs cRespMissing reqEmpty) =
      ⟨500, .errorMsg ("No schema defined for status " ++ toString 404)⟩ :=
  ⟨(response_schema_enforced cRespOk (routeArgs cRespOk reqEmpty)
      ⟨some 200, some (.obj [("ok", .bool true)])⟩ 200 rfl rfl (by decide)).2.2.2.2.2.2
      okObjSchema (.obj [("ok", .bool true)]) (.obj [("ok", .bool true)]) rfl rfl rfl rfl,
   (response_schema_enforced cRespMissing (routeArgs cRespMissing reqEmpty)
      ⟨some 404, some (.obj [])⟩ 404 rfl rfl (by decide)).1 rfl⟩

/-! ### C8 -/

/-- C8: a middleware whose declared validation passes and whose handler
returns without calling next.success, without calling next.error and
without writing a reply leaves the response state untouched and the
wrapper itself calls next, so the chain proceeds with the accumulated
context unchanged. -/
theorem middleware_noop_proceeds (m : Middleware) (req : Req) (st : ResState)
    (hv : mwCollectErrors m req = [])
    (hb : m.handler (mwArgsOf m req st) = ⟨[], none⟩)
    (hs : st.headersSent = false) :
    runMw m req st = (st, true, some (mwArgsOf m req st)) := by
  have hf : (mwCollectErrors m req).isEmpty = true := by simp [hv]
  simp only [runMw, hf, if_true]
  rw [hb]
  simp [runSafeHandler, runActions, hs]

def mwNoop : Middleware := { request := none, handler := fun _ => ⟨[], none⟩ }

theorem middleware_noop_proceeds_witness :
    runMw mwNoop reqEmpty ResState.initial =
      (ResState.initial, true, some (mwArgsOf mwNoop reqEmpty ResState.initial)) :=
  middleware_noop_proceeds mwNoop reqEmpty ResState.initial rfl rfl rfl

/-! ### C9 -/

/-- C9: once a middleware handler has called next.error or next.success
(so the finished flag is set after its actions), an exception thrown
afterwards in the same handler changes nothing: the safeHandler catch
sends no additional 500 reply and the wrapper state is exactly the one
the actions produced. -/
theorem middleware_no_second_reply (acts : List MwAction) (msg : String)
    (w : WrapState) (h : (runActions w acts).1.finished = true) :
    runSafeHandler w ⟨acts, some msg⟩ = (runActions w acts).1 := by
  unfold runSafeHandler
  cases hr : runActions w acts with
  | mk w1 threw =>
    rw [hr] at h
    cases threw with
    | true => simp
    | false => simp at h; simp [h]

theorem middleware_no_second_reply_witness :
    runSafeHandler ⟨ResState.initial, false, false⟩
        ⟨[.error 401 (.obj [])], some "late throw"⟩ =
      (runActions ⟨ResState.initial, false, false⟩ [.error 401 (.obj [])]).1 ∧
    (runActions ⟨ResState.initial, false, false⟩ [.error 401 (.obj [])]).1.res.replies =
      [⟨401, .jsonVal (.obj [])⟩] :=
  ⟨middleware_no_second_reply [.error 401 (.obj [])] "late throw"
      ⟨ResState.initial, false, false⟩ rfl, rfl⟩

/-! ### C5 -/

/-- A middleware with no request schemas whose handler only calls
next.success with the given context object. -/
def mkSuccessMw (ctx : Ctx) : Middleware :=
  { request := none, handler := fun _ => ⟨[.success (some ctx)], none⟩ }

/-- The request context after a chain of success calls, starting from
the possibly absent context field. -/
def ctxAfter (oc : Option Ctx) : List Ctx → Option Ctx
  | [] => oc
  | c :: rest => ctxAfter (some (jsMerge (oc.getD []) c)) rest

/-- The argument records the members of a success chain receive. -/
def seenArgsList (c0 : Ctx) : List Ctx → List MwArgs
  | [] => []
  | c :: rest => ⟨none, none, none, c0⟩ :: seenArgsList (jsMerge c0 c) rest

theorem runMw_mkSuccess (ctx : Ctx) (req : Req) (st : ResState) :
    runMw (mkSuccessMw ctx) req st =
      ({st with context := some (jsMerge (st.context.getD []) ctx)}, true,
        some ⟨none, none, none, st.context.getD []⟩) := by
  simp [runMw, mkSuccessMw, mwCollectErrors, partErrors, mwArgsOf, parsedPart,
        runSafeHandler, runActions, runAction]

theorem runChain_mkSuccess (req : Req) (ctxs : List Ctx) :
    ∀ st : ResState,
      runChain req st (ctxs.map mkSuccessMw) =
        (⟨ctxAfter st.context ctxs, st.headersSent, st.replies⟩,
          seenArgsList (st.context.getD []) ctxs, true) := by
  induction ctxs with
  | nil => intro st; rfl
  | cons c rest ih =>
    intro st
    show runChain req st (mkSuccessMw c :: rest.map mkSuccessMw) = _
    rw [runChain, runMw_mkSuccess]
    simp [ih, ctxAfter, seenArgsList]

theorem ctxAfter_getD (ctxs : List Ctx) :
    ∀ oc : Option Ctx, (ctxAfter oc ctxs).getD [] =
      List.foldl jsMerge (oc.getD []) ctxs := by
  induction ctxs with
  | nil => intro oc; rfl
  | cons c rest ih => intro oc; simpa [ctxAfter] using ih (some (jsMerge (oc.getD []) c))

theorem seenArgsList_length (ctxs : List Ctx) :
    ∀ c0 : Ctx, (seenArgsList c0 ctxs).length = ctxs.length := by
  induction ctxs with
  | nil => intro c0; rfl
  | cons c rest ih => intro c0; simp [seenArgsList, ih]

theorem seenArgsList_get (ctxs : List Ctx) :
    ∀ (c0 : Ctx) (i : Nat) (h : i < (seenArgsList c0 ctxs).length),
      (seenArgsList c0 ctxs).get ⟨i, h⟩ =
        ⟨none, none, none, List.foldl jsMerge c0 (ctxs.take i)⟩ := by
  induction ctxs with
  | nil => intro c0 i h; simp [seenArgsList] at h
  | cons c rest ih =>
    intro c0 i h
    cases i with
    | zero => rfl
    | succ j =>
      have hj : j < (seenArgsList (jsMerge c0 c) rest).length := by
        simpa [seenArgsList] using h
      simpa [seenArgsList, List.take] using ih (jsMerge c0 c) j hj

/-- C5: along a chain of middlewares that each call next.success with a
context object, the context the final handler receives is the left
fold of the JS spread merge of the contributed objects (the empty
object for an empty chain), the i-th middleware sees the merge of the
first i contributions, on a shared key the later contribution wins,
and merging a contribution with the empty object changes nothing. -/
theorem middleware_context_is_merged_chain (ctxs : List Ctx) (c : Contract)
    (req : Req) (hm : c.middlewares = ctxs.map mkSuccessMw)
    (hr : c.request = none) :
    ((runPipeline c req).2.2.1 =
      some (routeArgs c {req with context := ctxAfter none ctxs})) ∧
    ((routeArgs c {req with context := ctxAfter none ctxs}).context =
      List.foldl jsMerge [] ctxs) ∧
    ((runPipeline c req).2.1.length = ctxs.length) ∧
    (∀ i (h : i < (runPipeline c req).2.1.length),
      ((runPipeline c req).2.1.get ⟨i, h⟩).context =
        List.foldl jsMerge [] (ctxs.take i)) ∧
    (∀ a : Ctx, jsMerge a [] = a) ∧
    (∀ (k : String) (a b : Ctx), ctxLookup k (jsMerge a b) =
      match ctxLookup k b with
      | some v => some v
      | none => ctxLookup k a) := by
  have hchain := runChain_mkSuccess req ctxs ResState.initial
  have hinit : ResState.initial = (⟨none, false, []⟩ : ResState) := rfl
  rw [hinit] at hchain
  have hcoll : collectErrors c {req with context := ctxAfter none ctxs} = [] := by
    simp [collectErrors, hr, partErrors]
  have hpipe : runPipeline c req =
      ((trySend ⟨ctxAfter none ctxs, false, []⟩
          (routeDispatch c (routeArgs c {req with context := ctxAfter none ctxs}))).1,
        seenArgsList [] ctxs,
        some (routeArgs c {req with context := ctxAfter none ctxs}),
        some (routeDispatch c (routeArgs c {req with context := ctxAfter none ctxs}))) := by
    rw [runPipeline, hm, hinit, hchain]
    simp only [routeRun, hcoll, List.isEmpty_nil, if_true, Option.getD_none]
  refine ⟨?_, ?_, ?_, ?_, jsMerge_nil, ctxLookup_jsMerge⟩
  · rw [hpipe]
  · have := ctxAfter_getD ctxs none
    simp only [routeArgs]
    simpa using this
  · rw [hpipe]; exact seenArgsList_length ctxs []
  · intro i h
    have hlist : (runPipeline c req).2.1 = seenArgsList [] ctxs := by rw [hpipe]
    revert h
    rw [hlist]
    intro h
    exact congrArg MwArgs.context (seenArgsList_get ctxs [] i h)

def ctxA : Ctx := [("a", .num 1), ("b", .num 2)]
def ctxB : Ctx := [("b", .num 3), ("c", .num 4)]

def cChain : Contract :=
  { name := none, path := "/c", method := "get", request := none,
    responses := [(200, some okObjSchema)],
    middlewares := [ctxA, ctxB].map mkSuccessMw,
    handler := fun _ => .ret (some ⟨some 200, some (.obj [])⟩) }

theorem middleware_context_is_merged_chain_witness :
    (routeArgs cChain {reqEmpty with context := ctxAfter none [ctxA, ctxB]}).context =
      List.foldl jsMerge [] [ctxA, ctxB] ∧
    List.foldl jsMerge [] [ctxA, ctxB] =
      [("a", .num 1), ("b", .num 3), ("c", .num 4)] :=
  ⟨(middleware_context_is_merged_chain [ctxA, ctxB] cChain reqEmpty rfl rfl).2.1, rfl⟩

/-! ### C6 -/

theorem regHas_append (xs ys : List String) (k : String) :
    regHas (xs ++ ys) k = (regHas xs k || regHas ys k) := by
  induction xs with
  | nil => simp [regHas]
  | cons r rest ih =>
    by_cases hr : r = k <;> simp [regHas, hr, ih]

theorem registerLoop_append (cs1 cs2 : List Contract) :
    ∀ reg routes, registerLoop reg routes (cs1 ++ cs2) =
      registerLoop (registerLoop reg routes cs1).1
        (registerLoop reg routes cs1).2 cs2 := by
  induction cs1 with
  | nil => intro reg routes; rfl
  | cons c rest ih =>
    intro reg routes
    show registerLoop reg routes (c :: (rest ++ cs2)) = _
    rw [registerLoop]
    cases hk : regHas reg (contractKey c) with
    | true => simp only [hk, if_true]; rw [ih, registerLoop, hk]; simp
    | false =>
      simp only [hk, Bool.false_eq_true, if_false]
      rw [ih, registerLoop, hk]
      simp

theorem registerCalls_flatten (calls : List (List Contract)) :
    ∀ st, registerCalls st calls = registerLoop st.1 st.2 calls.flatten := by
  induction calls with
  | nil => intro st; rfl
  | cons cs rest ih =>
    intro st
    show registerCalls (registerLoop st.1 st.2 cs) rest = _
    rw [ih, List.flatten_cons, registerLoop_append]

theorem registerLoop_reg_mono (cs : List Contract) :
    ∀ reg routes, ∃ d, (registerLoop reg routes cs).1 = reg ++ d := by
  induction cs with
  | nil => intro reg routes; exact ⟨[], by simp [registerLoop]⟩
  | cons c rest ih =>
    intro reg routes
    rw [registerLoop]
    cases hk : regHas reg (contractKey c) with
    | true => simpa using ih reg routes
    | false =>
      obtain ⟨d, hd⟩ := ih (reg ++ [contractKey c]) (routes ++ [(contractKey c, c)])
      exact ⟨contractKey c :: d, by simpa [List.append_assoc] using hd⟩

theorem registerLoop_char (cs : List Contract) :
    ∀ (reg : List String) (routes : List (String × Contract)),
      (∀ k, regHas reg k = true ↔ ∃ e ∈ routes, e.1 = k) →
      ((routes.map Prod.fst).Nodup) →
      (((registerLoop reg routes cs).2.map Prod.fst).Nodup ∧
       ∀ k, (registerLoop reg routes cs).2.find? (fun e => e.1 == k) =
         (if regHas reg k then routes.find? (fun e => e.1 == k)
          else (cs.find? (fun c2 => contractKey c2 == k)).map
            (fun c2 => (contractKey c2, c2)))) := by
  induction cs with
  | nil =>
    intro reg routes hinv hnd
    refine ⟨hnd, ?_⟩
    intro k
    cases hk : regHas reg k with
    | true => simp [registerLoop, hk]
    | false =>
      have hnone : routes.find? (fun e => e.1 == k) = none := by
        apply List.find?_eq_none.mpr
        intro e he
        simp only [beq_iff_eq]
        intro hek
        have := (hinv k).mpr ⟨e, he, hek⟩
        rw [this] at hk; exact Bool.true_eq_false.mp hk
      simp [registerLoop, hk, hnone]
  | cons c rest ih =>
    intro reg routes hinv hnd
    cases hk : regHas reg (contractKey c) with
    | true =>
      have hstep : registerLoop reg routes (c :: rest) =
          registerLoop reg routes rest := by
        rw [registerLoop, hk, if_pos rfl]
      rw [hstep]
      obtain ⟨hnd2, hfind⟩ := ih reg routes hinv hnd
      refine ⟨hnd2, ?_⟩
      intro k
      rw [hfind k]
      by_cases hck : contractKey c = k
      · subst hck
        simp [hk]
      · have hc : (contractKey c == k) = false := by simp [hck]
        cases hrk : regHas reg k with
        | true => simp [hrk]
        | false => simp [hrk, List.find?_cons, hc]
    | false =>
      have hstep : registerLoop reg routes (c :: rest) =
          registerLoop (reg ++ [contractKey c])
            (routes ++ [(contractKey c, c)]) rest := by
        rw [registerLoop, hk]
        simp
      rw [hstep]
      have hknotin : ¬ ∃ e ∈ routes, e.1 = contractKey c := by
        intro hex
        have := (hinv (contractKey c)).mpr hex
        rw [this] at hk; exact Bool.true_eq_false.mp hk
      have hinv2 : ∀ k, regHas (reg ++ [contractKey c]) k = true ↔
          ∃ e ∈ routes ++ [(contractKey c, c)], e.1 = k := by
        intro k
        rw [regHas_append]
        constructor
        · intro h
          rcases (Bool.or_eq_true _ _).mp h with h1 | h1
          · obtain ⟨e, he, hek⟩ := (hinv k).mp h1
            exact ⟨e, by simp [he], hek⟩
          · have : contractKey c = k := by
              by_contra hne
              simp [regHas, hne] at h1
            exact ⟨(contractKey c, c), by simp, this⟩
        · rintro ⟨e, he, hek⟩
          rcases List.mem_append.mp he with h1 | h1
          · exact (Bool.or_eq_true _ _).mpr
              (Or.inl ((hinv k).mpr ⟨e, h1, hek⟩))
          · apply (Bool.or_eq_true _ _).mpr
            right
            have : e = (contractKey c, c) := by simpa using h1
            rw [this] at hek
            simp only [regHas]
            rw [if_pos hek]
      have hnd2 : ((routes ++ [(contractKey c, c)]).map Prod.fst).Nodup := by
        rw [List.map_append]
        rw [List.nodup_append]
        refine ⟨hnd, by simp, ?_⟩
        intro a ha hb
        have hac : a = contractKey c := by simpa using hb
        subst hac
        obtain ⟨e, he, hek⟩ := List.mem_map.mp ha
        exact hknotin ⟨e, he, hek⟩
      obtain ⟨hnd3, hfind⟩ := ih (reg ++ [contractKey c])
        (routes ++ [(contractKey c, c)]) hinv2 hnd2
      refine ⟨hnd3, ?_⟩
      intro k
      rw [hfind k]
      by_cases hck : contractKey c = k
      · subst hck
        have hregk : regHas (reg ++ [contractKey c]) (contractKey c) = true := by
          rw [regHas_append]
          simp [regHas]
        rw [hregk, if_pos rfl, hk]
        have hnone : routes.find? (fun e => e.1 == contractKey c) = none := by
          apply List.find?_eq_none.mpr
          intro e he
          simp only [beq_iff_eq]
          intro hek
          exact hknotin ⟨e, he, hek⟩
        rw [List.find?_append, hnone]
        simp [List.find?]
      · have hc : (contractKey c == k) = false := by simp [hck]
        have hreg2 : regHas (reg ++ [contractKey c]) k = regHas reg k := by
          rw [regHas_append]
          have : regHas [contractKey c] k = false := by simp [regHas, hck]
          simp [this]
        rw [hreg2]
        cases hrk : regHas reg k with
        | true =>
          simp only [if_pos rfl]
          cases hrf : routes.find? (fun e => e.1 == k) with
          | some e => rw [List.find?_append, hrf]; rfl
          | none =>
            exfalso
            obtain ⟨e, he, hek⟩ := (hinv k).mp hrk
            have := List.find?_eq_none.mp hrf e he
            simp [hek] at this
        | false =>
          simp only [Bool.false_eq_true, if_false]
          simp [List.find?_cons, hc]

/-- C6: across one or several registerContracts calls on the same app,
the route table keys are free of duplicates (at most one contract
handler per method-and-path key), the entry stored for a key is the
first contract with that key in the concatenated stream of all calls
(every later duplicate is skipped), and the per-app registered set
only ever grows by appending new keys at startup. -/
theorem register_routes_first_wins (calls : List (List Contract)) :
    (((registerCalls ([], []) calls).2.map Prod.fst).Nodup) ∧
    (∀ k, (registerCalls ([], []) calls).2.find? (fun e => e.1 == k) =
      (calls.flatten.find? (fun c => contractKey c == k)).map
        (fun c => (contractKey c, c))) ∧
    (∀ cs, ∃ d, (registerCalls ([], []) (calls ++ [cs])).1 =
      (registerCalls ([], []) calls).1 ++ d) := by
  have hflat := registerCalls_flatten calls (([], []) :
    List String × List (String × Contract))
  have hchar := registerLoop_char calls.flatten [] []
    (by intro k; simp [regHas]) (by simp)
  refine ⟨?_, ?_, ?_⟩
  · rw [hflat]; exact hchar.1
  · intro k
    rw [hflat, hchar.2 k]
    simp [regHas]
  · intro cs
    have h1 := registerCalls_flatten (calls ++ [cs]) (([], []) :
      List String × List (String × Contract))
    have h2 : (calls ++ [cs]).flatten = calls.flatten ++ cs := by
      simp
    rw [h1, h2, registerLoop_append]
    obtain ⟨d, hd⟩ := registerLoop_reg_mono cs
      (registerLoop [] [] calls.flatten).1 (registerLoop [] [] calls.flatten).2
    refine ⟨d, ?_⟩
    rw [hd, hflat]

/-! ### C7 and C10: paths object lemmas -/

theorem objGet_append (o1 o2 : List (String × JsVal)) (k : String) :
    objGet (o1 ++ o2) k =
      match objGet o1 k with
      | some v => some v
      | none => objGet o2 k := by
  induction o1 with
  | nil => simp [objGet]
  | cons p rest ih =>
    by_cases h : p.1 = k <;> simp [objGet, h, ih]

theorem objGet_map_update (o : List (String × JsVal)) (k k2 : String) (v : JsVal) :
    objGet (o.map (fun p => if p.1 = k then (k, v) else p)) k2 =
      if k2 = k then (if (objGet o k).isSome then some v else none)
      else objGet o k2 := by
  induction o with
  | nil => by_cases h : k2 = k <;> simp [objGet, h]
  | cons p rest ih =>
    by_cases hp : p.1 = k
    · by_cases h2 : k2 = k
      · subst h2; simp [objGet, hp, ih]
      · have : ¬ (k = k2) := fun hh => h2 hh.symm
        simp [objGet, hp, this, ih, h2, hp.symm ▸ (show ¬ (p.1 = k2) by rw [hp]; exact this)]
    · by_cases h2 : p.1 = k2
      · have hkk : ¬ (k2 = k) := by rw [← h2]; exact fun hh => hp hh
        simp [objGet, hp, h2, hkk]
      · simp [objGet, hp, h2, ih]

theorem objGet_objSet (o : List (String × JsVal)) (k : String) (v : JsVal)
    (k2 : String) :
    objGet (objSet o k v) k2 = if k2 = k then some v else objGet o k2 := by
  unfold objSet
  by_cases h : (objGet o k).isSome
  · rw [if_pos h, objGet_map_update]
    by_cases hk : k2 = k
    · simp [hk, h]
    · simp [hk]
  · rw [if_neg h, objGet_append]
    by_cases hk : k2 = k
    · subst hk
      cases hg : objGet o k2 with
      | some v2 => rw [hg] at h; exact absurd rfl h
      | none => simp [objGet]
    · have hkk : ¬ (k = k2) := fun hh => hk hh.symm
      cases hg : objGet o k2 <;> simp [hg, objGet, hkk, hk]

/-- The operation entry the paths loop keeps for a path and method: the
one of the last matching contract, the given default if none matches. -/
def lastOp (p m : String) (cs : List Contract) (dflt : Option JsVal) : Option JsVal :=
  cs.foldl (fun acc c =>
    if c.path = p ∧ c.method = m then some (opEntry c) else acc) dflt

theorem pathsLookup_pathsStep (paths : List (String × JsVal)) (c : Contract)
    (p m : String) :
    pathsLookup (pathsStep paths c) p m =
      if c.path = p ∧ c.method = m then some (opEntry c)
      else pathsLookup paths p m := by
  unfold pathsStep pathsLookup
  by_cases hp : c.path = p
  · subst hp
    rw [objGet_objSet, if_pos rfl]
    by_cases hm2 : c.method = m
    · subst hm2
      simp [asObjFields, objGet_objSet]
    · have hmm : ¬ (m = c.method) := fun hh => hm2 hh.symm
      simp only [asObjFields, objGet_objSet, if_neg hmm, hm2, and_false, if_false]
  · have hpp : ¬ (p = c.path) := fun hh => hp hh.symm
    rw [objGet_objSet, if_neg hpp]
    simp [hp]

theorem pathsLookup_foldl (cs : List Contract) :
    ∀ (paths : List (String × JsVal)) (p m : String),
      pathsLookup (List.foldl pathsStep paths cs) p m =
        lastOp p m cs (pathsLookup paths p m) := by
  induction cs with
  | nil => intro paths p m; rfl
  | cons c rest ih =>
    intro paths p m
    rw [List.foldl_cons, ih, pathsLookup_pathsStep]
    rfl

theorem lastOp_no_match (p m : String) (cs : List Contract)
    (hno : ∀ c ∈ cs, ¬(c.path = p ∧ c.method = m)) (d : Option JsVal) :
    lastOp p m cs d = d := by
  induction cs generalizing d with
  | nil => rfl
  | cons c rest ih =>
    have hc := hno c (by simp)
    show lastOp p m rest (if c.path = p ∧ c.method = m then some (opEntry c) else d) = d
    rw [if_neg hc]
    exact ih (fun c2 h2 => hno c2 (by simp [h2])) d

/-- C7 (amended): generateOpenApi is a pure mapping producing the
fixed version string, the metadata as info, and, for every contract
whose path-method pair is repeated by no later contract in the list,
the operation entry at paths[path][method] generated from that
contract, whose parameters hold one entry per declared query field and
per declared header field (header names lowercased), required exactly
when the field schema rejects an absent value, and whose responses
hold one entry per declared status, a null schema yielding a plain
no-content description without a content schema. -/
theorem openapi_entry_per_contract (cs : List Contract) (meta : JsVal)
    (c : Contract) (pre post : List Contract)
    (hsplit : cs = pre ++ c :: post)
    (hlast : ∀ c2 ∈ post, ¬(c2.path = c.path ∧ c2.method = c.method)) :
    (generateOpenApi cs meta =
      .obj [("openapi", .str "3.0.3"), ("info", meta),
            ("paths", .obj (genPaths cs))]) ∧
    (pathsLookup (genPaths cs) c.path c.method = some (opEntry c)) ∧
    (opEntry c = .obj [("summary",
        match c.name with
        | some s => if s = "" then .undef else .str s
        | none => .undef),
      ("requestBody",
        match c.request.bind (·.body) with
        | some b => .obj [("content", .obj [("application/json",
            .obj [("schema", sanitizeSchema b.jsonSchema)])])]
        | none => .undef),
      ("responses", .obj (genResponses c.responses)),
      ("parameters", .arr (queryParams (c.request.bind (·.query)) ++
                           headerParams (c.request.bind (·.headers))))]) ∧
    (∀ qs, c.request.bind (·.query) = some qs →
      (queryParams (some qs)).length = qs.shape.length ∧
      ∀ f ∈ qs.shape, paramEntry "query" f.1 f.2 ∈ queryParams (some qs)) ∧
    (∀ hs, c.request.bind (·.headers) = some hs →
      (headerParams (some hs)).length = hs.shape.length ∧
      ∀ f ∈ hs.shape, paramEntry "header" (lowerName f.1) f.2 ∈ headerParams (some hs)) ∧
    (∀ loc key f, paramEntry loc key f =
      .obj [("name", .str key), ("in", .str loc),
            ("required", .bool (!parseSucceeds f .undef)),
            ("schema", sanitizeSchema f.jsonSchema)] ∧
      (parseSucceeds f .undef = false ↔ ∃ issues, f.parse .undef = .error issues)) ∧
    ((genResponses c.responses).length = c.responses.length ∧
      ∀ pr ∈ c.responses,
        (toString pr.1, respEntry pr.1 pr.2) ∈ genResponses c.responses) ∧
    (∀ s, respEntry s none =
      .obj [("description", .str ("Response " ++ toString s ++ " (no content)"))]) := by
  refine ⟨rfl, ?_, rfl, ?_, ?_, ?_, ?_, fun s => rfl⟩
  · subst hsplit
    unfold genPaths
    rw [show pre ++ c :: post = (pre ++ [c]) ++ post by simp]
    rw [List.foldl_append, pathsLookup_foldl, lastOp_no_match _ _ _ hlast]
    rw [List.foldl_append, List.foldl_cons, List.foldl_nil, pathsLookup_pathsStep]
    simp
  · intro qs hqs
    refine ⟨by simp [queryParams], ?_⟩
    intro f hf
    simp only [queryParams, List.mem_map]
    exact ⟨f, hf, rfl⟩
  · intro hs hhs
    refine ⟨by simp [headerParams], ?_⟩
    intro f hf
    simp only [headerParams, List.mem_map]
    exact ⟨f, hf, rfl⟩
  · intro loc key f
    refine ⟨rfl, ?_⟩
    unfold parseSucceeds
    cases hp : f.parse .undef with
    | ok d => simp
    | error issues => simp
  · refine ⟨by simp [genResponses], ?_⟩
    intro pr hpr
    simp only [genResponses, List.mem_map]
    exact ⟨pr, hpr, rfl⟩

def qFieldRequired : ZSchema :=
  { parse := fun v => match v with
      | .undef => .error [⟨[], "required"⟩]
      | w => .ok w,
    jsonSchema := .obj [("type", .str "string")] }

def cDupFirst : Contract :=
  { name := none, path := "/x", method := "get",
    request := some ⟨none, none,
      some { parse := fun v => .ok v, jsonSchema := .obj [],
             shape := [("a", qFieldRequired)] }, none⟩,
    responses := [], middlewares := [], handler := fun _ => .ret none }

def cDupSecond : Contract :=
  { name := none, path := "/x", method := "get", request := none,
    responses := [], middlewares := [], handler := fun _ => .ret none }

/-- With two contracts sharing path and method, the document holds
only the later operation entry, and the earlier contract (which
declares one query field) has no entry carrying its parameter: the
claim as stated fails on this input. -/
theorem openapi_entry_per_contract_counterexample :
    pathsLookup (genPaths [cDupFirst, cDupSecond]) "/x" "get" =
      some (opEntry cDupSecond) ∧
    opEntry cDupFirst ≠ opEntry cDupSecond ∧
    pathsLookup (genPaths [cDupFirst, cDupSecond]) "/x" "get" ≠
      some (opEntry cDupFirst) ∧
    queryParams (cDupFirst.request.bind (·.query)) =
      [paramEntry "query" "a" qFieldRequired] := by
  have h1 : pathsLookup (genPaths [cDupFirst, cDupSecond]) "/x" "get" =
      some (opEntry cDupSecond) := rfl
  have h2 : opEntry cDupFirst ≠ opEntry cDupSecond := by
    intro h
    simp [opEntry, cDupFirst, cDupSecond, queryParams, headerParams,
      genResponses, paramEntry, qFieldRequired, sanitizeSchema, parseSucceeds] at h
  exact ⟨h1, h2, fun h => h2 (Option.some.inj (h1.symm.trans h)).symm, rfl⟩

def hdrFieldTok : ZSchema :=
  { parse := fun v => match v with
      | .undef => .error [⟨[], "required"⟩]
      | w => .ok w,
    jsonSchema := .obj [("type", .str "string")] }

def cSingleOp : Contract :=
  { name := some "single", path := "/w7", method := "get",
    request := some ⟨none,
      some { parse := fun v => .ok v, jsonSchema := .obj [],
             shape := [("X-Token", hdrFieldTok)] }, none, none⟩,
    responses := [(204, none)], middlewares := [], handler := fun _ => .ret none }

theorem openapi_entry_per_contract_witness :
    pathsLookup (genPaths [cSingleOp]) cSingleOp.path cSingleOp.method =
      some (opEntry cSingleOp) ∧
    headerParams (cSingleOp.request.bind (·.headers)) =
      [.obj [("name", .str "x-token"), ("in", .str "header"),
             ("required", .bool true),
             ("schema", .obj [("type", .str "string")])]] ∧
    genResponses cSingleOp.responses =
      [("204", .obj [("description", .str "Response 204 (no content)")])] := by
  refine ⟨(openapi_entry_per_contract [cSingleOp] .null cSingleOp [] [] rfl
    (by simp)).2.1, rfl, rfl⟩

/-- C10: generateOpenApi has no duplicate detection: with two contracts
sharing a path and method, the document contains only the later
operation entry, the earlier one being silently overwritten in place. -/
theorem openapi_duplicate_overwrites (c1 c2 : Contract) (meta : JsVal)
    (p mth : String)
    (h1p : c1.path = p) (h2p : c2.path = p)
    (h1m : c1.method = mth) (h2m : c2.method = mth) :
    generateOpenApi [c1, c2] meta =
      .obj [("openapi", .str "3.0.3"), ("info", meta),
            ("paths", .obj [(p, .obj [(mth, opEntry c2)])])] := by
  have s1 : pathsStep [] c1 = [(p, .obj [(mth, opEntry c1)])] := by
    simp [pathsStep, objSet, objGet, asObjFields, h1p, h1m]
  have s2 : pathsStep [(p, .obj [(mth, opEntry c1)])] c2 =
      [(p, .obj [(mth, opEntry c2)])] := by
    simp [pathsStep, objSet, objGet, asObjFields, h2p, h2m]
  unfold generateOpenApi genPaths
  rw [List.foldl_cons, s1, List.foldl_cons, s2, List.foldl_nil]

def cOverFirst : Contract :=
  { name := some "first", path := "/d", method := "put", request := none,
    responses := [], middlewares := [], handler := fun _ => .ret none }

def cOverSecond : Contract :=
  { name := some "second", path := "/d", method := "put", request := none,
    responses := [], middlewares := [], handler := fun _ => .ret none }

theorem openapi_duplicate_overwrites_witness :
    generateOpenApi [cOverFirst, cOverSecond] .null =
      .obj [("openapi", .str "3.0.3"), ("info", .null),
            ("paths", .obj [("/d", .obj [("put", opEntry cOverSecond)])])] :=
  openapi_duplicate_overwrites cOverFirst cOverSecond .null "/d" "put"
    rfl rfl rfl rfl
